import Mathlib

/-!
Verification of the trip-planner repository (bcr8v3/trip-planner).

This file shallowly embeds the data-shaping and layout core of the
PDF exporter of the repository (src/exportdata.js: `generateDateRange`,
`createDayCardData`, the card-height estimate of `addDayCardToPDF`, and the
pagination loop of `generatePDF`) together with the persistence endpoint
handlers (src/netlify/functions/updateData.js and the older variant in
src/unnamed/part_000), and proves or refutes the frozen claims about them.

Dates: the JS code parses `"YYYY-MM-DD" + "T00:00:00"` into a `Date` at
local midnight and only ever compares dates and steps them with
`setDate(getDate() + 1)`.  A `Date` at local midnight is determined by its
calendar components, so we embed it as a year/month/day triple of naturals;
`dayNumber` is the proleptic-Gregorian day count that mirrors the numeric
(millisecond) ordering of JS `Date` values, and `nextDay` mirrors
`setDate(getDate() + 1)` (month and year rollover per the Gregorian
calendar, as implemented by JS `Date`).
-/

/-- A calendar date, the embedding of a JS `Date` pinned to local midnight
(`new Date(str + "T00:00:00")`).  `month` is 1-based (JS `getMonth() + 1`). -/
structure CalDate where
  year : Nat
  month : Nat
  day : Nat
deriving DecidableEq

/-- Gregorian leap-year rule (as implemented by JS `Date`). -/
def isLeapYear (y : Nat) : Bool :=
  y % 4 = 0 && (y % 100 ≠ 0 || y % 400 = 0)

/-- Length of a month in the Gregorian calendar (as implemented by JS
the rollover behavior of JS `Date` in `setDate`). -/
def daysInMonth (y m : Nat) : Nat :=
  if m = 2 then (if isLeapYear y then 29 else 28)
  else if m = 4 ∨ m = 6 ∨ m = 9 ∨ m = 11 then 30
  else 31

/-- A well-formed calendar date (what a valid `"YYYY-MM-DD"` string parses
to).  Year at least 1 keeps the internal shifted-year arithmetic in `Nat`. -/
def CalDate.Valid (d : CalDate) : Prop :=
  1 ≤ d.year ∧ 1 ≤ d.month ∧ d.month ≤ 12 ∧ 1 ≤ d.day ∧
    d.day ≤ daysInMonth d.year d.month

instance (d : CalDate) : Decidable d.Valid := by
  unfold CalDate.Valid; infer_instance

/-- Internal (March-based) year: January and February count as months 10 and
11 of the previous year.  Standard civil-calendar decomposition. -/
def internalYear (d : CalDate) : Nat :=
  if d.month ≤ 2 then d.year - 1 else d.year

/-- Internal (March-based) month index in `0..11`. -/
def internalMonth (d : CalDate) : Nat :=
  if d.month ≤ 2 then d.month + 9 else d.month - 3

/-- Number of days strictly before internal year `yi` (counting from the
proleptic date March 1 of year 0). -/
def fYear (yi : Nat) : Nat :=
  yi / 400 * 146097 + yi % 400 * 365 + yi % 400 / 4 - yi % 400 / 100

/-- Day-of-internal-year of internal month `mp` (0..11), day-of-month `dd`. -/
def doyOf (mp dd : Nat) : Nat :=
  (153 * mp + 2) / 5 + dd - 1

/-- Proleptic Gregorian day count of a date.  On valid dates this is a
strictly increasing image of the JS `Date` millisecond value, so JS `Date`
comparison (`currentDate <= end`) is `dayNumber` comparison. -/
def dayNumber (d : CalDate) : Nat :=
  fYear (internalYear d) + doyOf (internalMonth d) d.day

/-- The embedding of `currentDate.setDate(currentDate.getDate() + 1)`:
advance one calendar day, rolling over months and years. -/
def nextDay (d : CalDate) : CalDate :=
  if d.day < daysInMonth d.year d.month then ⟨d.year, d.month, d.day + 1⟩
  else if d.month < 12 then ⟨d.year, d.month + 1, 1⟩
  else ⟨d.year + 1, 1, 1⟩

/-- Fuel-indexed unfolding of the `while (currentDate <= end)` loop of
`generateDateRange`.  Each iteration pushes the current date and steps one
day; the fuel bounds the number of iterations (for valid inputs the fuel
chosen in `generateDateRange` is exactly the number of iterations the JS
loop performs, as proved in the range lemmas below). -/
def rangeGo : Nat → CalDate → CalDate → List CalDate
  | 0, _, _ => []
  | fuel + 1, cur, stop =>
      if dayNumber cur ≤ dayNumber stop then
        cur :: rangeGo fuel (nextDay cur) stop
      else []

/-- Embedding of `generateDateRange(startDate, endDate)` from
src/exportdata.js (identical in both exporter variants, lines 154-166 and
641-653): collect the dates from `startDate` while `currentDate <= endDate`,
stepping one day at a time.  No failure path exists: when
`endDate < startDate` the loop condition fails at once and `[]` results. -/
def generateDateRange (startD endD : CalDate) : List CalDate :=
  rangeGo (dayNumber endD + 1 - dayNumber startD) startD endD

/-- The list `[s, nextDay s, nextDay (nextDay s), ...]` of length `k`; the
mathematical description of what the range loop produces. -/
def iterList : CalDate → Nat → List CalDate
  | _, 0 => []
  | c, k + 1 => c :: iterList (nextDay c) k

/-! ### Arithmetic facts about the calendar embedding -/

lemma isLeapYear_iff (y : Nat) :
    isLeapYear y = true ↔ (y % 4 = 0 ∧ (y % 100 ≠ 0 ∨ y % 400 = 0)) := by
  simp [isLeapYear]

lemma daysInMonth_pos (y m : Nat) : 1 ≤ daysInMonth y m := by
  unfold daysInMonth
  split
  · split <;> omega
  · split <;> omega

lemma daysInMonth_le (y m : Nat) : daysInMonth y m ≤ 31 := by
  unfold daysInMonth
  split
  · split <;> omega
  · split <;> omega

@[simp] lemma CalDate.valid_mk (y m dd : Nat) :
    (CalDate.mk y m dd).Valid ↔
      (1 ≤ y ∧ 1 ≤ m ∧ m ≤ 12 ∧ 1 ≤ dd ∧ dd ≤ daysInMonth y m) :=
  Iff.rfl

lemma nextDay_valid {d : CalDate} (hd : d.Valid) : (nextDay d).Valid := by
  obtain ⟨y, m, dd⟩ := d
  rw [CalDate.valid_mk] at hd
  obtain ⟨hy, hm1, hm2, hd1, hd2⟩ := hd
  dsimp only [nextDay]
  split <;> rename_i h1
  · rw [CalDate.valid_mk]
    exact ⟨hy, hm1, hm2, by omega, by omega⟩
  · split <;> rename_i h2
    · rw [CalDate.valid_mk]
      exact ⟨hy, by omega, by omega, le_refl 1, daysInMonth_pos _ _⟩
    · rw [CalDate.valid_mk]
      exact ⟨by omega, by omega, by omega, le_refl 1, daysInMonth_pos _ _⟩

/-- Normal form of `fYear` on an explicit 400-year-era decomposition. -/
lemma fYear_eq (q r : Nat) (hr : r < 400) :
    fYear (400 * q + r) = q * 146097 + r * 365 + r / 4 - r / 100 := by
  unfold fYear
  have e1 : (400 * q + r) / 400 = q := by omega
  have e2 : (400 * q + r) % 400 = r := by omega
  rw [e1, e2]

/-- One internal year spans 365 days, or 366 when its terminal February
(calendar year `yi + 1`) is leap. -/
lemma fYear_succ (yi : Nat) :
    fYear (yi + 1) = fYear yi + (if isLeapYear (yi + 1) then 366 else 365) := by
  obtain ⟨q, r, hqr, hr⟩ : ∃ q r, yi = 400 * q + r ∧ r < 400 :=
    ⟨_, _, (Nat.div_add_mod yi 400).symm, Nat.mod_lt _ (by norm_num)⟩
  subst hqr
  have hbase := fYear_eq q r hr
  have hLiff := isLeapYear_iff (400 * q + r + 1)
  rcases Nat.lt_or_ge r 399 with h | h
  · have hshape : 400 * q + r + 1 = 400 * q + (r + 1) := by ring
    have hstep : fYear (400 * q + r + 1) =
        q * 146097 + (r + 1) * 365 + (r + 1) / 4 - (r + 1) / 100 := by
      rw [hshape]; exact fYear_eq q (r + 1) (by omega)
    have hmod4 : (400 * q + r + 1) % 4 = (r + 1) % 4 := by omega
    have hmod100 : (400 * q + r + 1) % 100 = (r + 1) % 100 := by omega
    have hmod400 : (400 * q + r + 1) % 400 = r + 1 := by omega
    rw [hmod4, hmod100, hmod400] at hLiff
    by_cases hL : isLeapYear (400 * q + r + 1) = true
    · have hp := hLiff.mp hL
      rw [if_pos hL]
      omega
    · have hp : ¬((r + 1) % 4 = 0 ∧ ((r + 1) % 100 ≠ 0 ∨ r + 1 = 0)) :=
        fun hc => hL (hLiff.mpr hc)
      rw [if_neg hL]
      omega
  · have hr399 : r = 399 := by omega
    subst hr399
    have hshape : 400 * q + 399 + 1 = 400 * (q + 1) + 0 := by ring
    have hstep : fYear (400 * q + 399 + 1) = (q + 1) * 146097 := by
      rw [hshape, fYear_eq (q + 1) 0 (by norm_num)]
      norm_num
    have hL : isLeapYear (400 * q + 399 + 1) = true := by
      apply hLiff.mpr
      constructor
      · omega
      · right; omega
    rw [if_pos hL]
    omega

lemma fYear_mono {a b : Nat} (h : a ≤ b) : fYear a ≤ fYear b := by
  induction b, h using Nat.le_induction with
  | base => exact le_refl _
  | succ b _ ih =>
      have := fYear_succ b
      split at this <;> omega

lemma fYear_lt {a b : Nat} (h : a < b) : fYear a + 365 ≤ fYear b := by
  have h1 := fYear_succ a
  have h2 : fYear (a + 1) ≤ fYear b := fYear_mono (by omega)
  split at h1 <;> omega

/-- Unfolded form of `dayNumber` on an explicit constructor. -/
lemma dayNumber_mk (y m dd : Nat) :
    dayNumber ⟨y, m, dd⟩ =
      fYear (if m ≤ 2 then y - 1 else y) +
        ((153 * (if m ≤ 2 then m + 9 else m - 3) + 2) / 5 + dd - 1) :=
  rfl

/-- Day-of-internal-year stays below the length of the internal year. -/
lemma doy_lt_yearLen {d : CalDate} (hd : d.Valid) :
    doyOf (internalMonth d) d.day <
      365 + (if isLeapYear (internalYear d + 1) then 1 else 0) := by
  obtain ⟨y, m, dd⟩ := d
  rw [CalDate.valid_mk] at hd
  obtain ⟨hy, hm1, hm2, hd1, hd2⟩ := hd
  dsimp only [internalMonth, internalYear, doyOf]
  by_cases hm : m ≤ 2
  · simp only [hm, if_true]
    interval_cases m
    · -- January
      unfold daysInMonth at hd2
      norm_num at hd2
      split <;> omega
    · -- February: day count is tied to the leap status of year y
      unfold daysInMonth at hd2
      norm_num at hd2
      have hsub : y - 1 + 1 = y := by omega
      rw [hsub]
      by_cases hly : isLeapYear y = true <;>
        simp only [hly, Bool.false_eq_true, if_true, if_false] at hd2 ⊢ <;> omega
  · simp only [hm, if_false]
    have hdle : dd ≤ 31 := le_trans hd2 (daysInMonth_le _ _)
    split <;> omega

/-- The loop step `setDate(getDate() + 1)` advances `dayNumber` by one. -/
lemma dayNumber_nextDay {d : CalDate} (hd : d.Valid) :
    dayNumber (nextDay d) = dayNumber d + 1 := by
  obtain ⟨y, m, dd⟩ := d
  rw [CalDate.valid_mk] at hd
  obtain ⟨hy, hm1, hm2, hd1, hd2⟩ := hd
  dsimp only [nextDay]
  split <;> rename_i hlast
  · -- within the same month
    rw [dayNumber_mk, dayNumber_mk]
    split <;> omega
  · split <;> rename_i hm12
    · -- roll over to the next month of the same calendar year
      have hdd : dd = daysInMonth y m := by omega
      rw [dayNumber_mk, dayNumber_mk]
      interval_cases m <;> unfold daysInMonth at hdd <;> norm_num at hdd ⊢
      · -- January → February, same internal year y - 1
        omega
      · -- February → March, internal year steps from y - 1 to y
        have hstep := fYear_succ (y - 1)
        have hsub : y - 1 + 1 = y := by omega
        rw [hsub] at hstep
        by_cases hly : isLeapYear y = true <;>
          simp only [hly, Bool.false_eq_true, if_true, if_false] at hdd hstep <;>
          omega
      all_goals omega
    · -- December 31 → January 1 of the next calendar year
      have hm' : m = 12 := by omega
      subst hm'
      have hdd : dd = 31 := by
        unfold daysInMonth at hd2 hlast
        norm_num at hd2 hlast
        omega
      subst hdd
      rw [dayNumber_mk, dayNumber_mk]
      norm_num

/-- Day-of-internal-year stays below the base offset of the next internal month. -/
lemma doy_ub {d : CalDate} (hd : d.Valid) :
    doyOf (internalMonth d) d.day < (153 * (internalMonth d + 1) + 2) / 5 := by
  obtain ⟨y, m, dd⟩ := d
  rw [CalDate.valid_mk] at hd
  obtain ⟨hy, hm1, hm2, hd1, hd2⟩ := hd
  dsimp only [internalMonth, doyOf]
  have hdd29 : m = 2 → dd ≤ 29 := by
    intro hm
    subst hm
    unfold daysInMonth at hd2
    norm_num at hd2
    split at hd2 <;> omega
  interval_cases m <;> (unfold daysInMonth at hd2; norm_num at hd2 ⊢) <;>
    omega

/-- Calendar (lexicographic) order implies internal (shifted) order. -/
lemma internal_lt {d1 d2 : CalDate} (h1 : d1.Valid) (h2 : d2.Valid)
    (hlt : d1.year < d2.year ∨ (d1.year = d2.year ∧
      (d1.month < d2.month ∨ (d1.month = d2.month ∧ d1.day < d2.day)))) :
    internalYear d1 < internalYear d2 ∨ (internalYear d1 = internalYear d2 ∧
      (internalMonth d1 < internalMonth d2 ∨
        (internalMonth d1 = internalMonth d2 ∧ d1.day < d2.day))) := by
  obtain ⟨hy1, hm11, hm12, -, -⟩ := h1
  obtain ⟨hy2, hm21, hm22, -, -⟩ := h2
  unfold internalYear internalMonth
  split_ifs <;> omega

/-- `dayNumber` is strictly monotone in calendar order on valid dates:
the numeric (millisecond) order of the embedded JS `Date` values. -/
lemma dayNumber_lt {d1 d2 : CalDate} (h1 : d1.Valid) (h2 : d2.Valid)
    (hlt : d1.year < d2.year ∨ (d1.year = d2.year ∧
      (d1.month < d2.month ∨ (d1.month = d2.month ∧ d1.day < d2.day)))) :
    dayNumber d1 < dayNumber d2 := by
  have hi := internal_lt h1 h2 hlt
  unfold dayNumber
  rcases hi with hy | ⟨hyeq, hm | ⟨hmeq, hd⟩⟩
  · -- strictly earlier internal year
    have hdoy := doy_lt_yearLen h1
    have hstep := fYear_succ (internalYear d1)
    have hmono : fYear (internalYear d1 + 1) ≤ fYear (internalYear d2) :=
      fYear_mono (by omega)
    by_cases hly : isLeapYear (internalYear d1 + 1) = true <;>
      simp only [hly, Bool.false_eq_true, if_true, if_false] at hdoy hstep <;>
      omega
  · -- same internal year, strictly earlier internal month
    rw [hyeq]
    have hub := doy_ub h1
    have hbase : (153 * (internalMonth d1 + 1) + 2) / 5 ≤
        (153 * internalMonth d2 + 2) / 5 :=
      Nat.div_le_div_right (by omega)
    have hlb : 1 ≤ d2.day := h2.2.2.2.1
    unfold doyOf at hub ⊢
    omega
  · -- same internal year and month, strictly earlier day
    rw [hyeq, hmeq]
    have hlb : 1 ≤ d1.day := h1.2.2.2.1
    unfold doyOf
    omega

/-- `dayNumber` is injective on valid dates. -/
lemma dayNumber_inj {d1 d2 : CalDate} (h1 : d1.Valid) (h2 : d2.Valid)
    (h : dayNumber d1 = dayNumber d2) : d1 = d2 := by
  by_contra hne
  have htri : (d1.year < d2.year ∨ (d1.year = d2.year ∧
        (d1.month < d2.month ∨ (d1.month = d2.month ∧ d1.day < d2.day)))) ∨
      (d2.year < d1.year ∨ (d2.year = d1.year ∧
        (d2.month < d1.month ∨ (d2.month = d1.month ∧ d2.day < d1.day)))) := by
    obtain ⟨y1, m1, dd1⟩ := d1
    obtain ⟨y2, m2, dd2⟩ := d2
    simp only [CalDate.mk.injEq, not_and] at hne
    dsimp only
    omega
  rcases htri with ha | hb
  · exact absurd h (Nat.ne_of_lt (dayNumber_lt h1 h2 ha))
  · exact absurd h.symm (Nat.ne_of_lt (dayNumber_lt h2 h1 hb))

/-! ### The range loop computes consecutive-day lists -/

/-- With the fuel chosen in `generateDateRange`, the loop produces exactly
the `k` successive days starting at `cur`. -/
lemma rangeGo_eq_iterList :
    ∀ (k : Nat) (cur stop : CalDate), cur.Valid →
      dayNumber stop + 1 - dayNumber cur = k → rangeGo k cur stop = iterList cur k := by
  intro k
  induction k with
  | zero => intro cur stop _ _; rfl
  | succ k ih =>
      intro cur stop hv hk
      have hle : dayNumber cur ≤ dayNumber stop := by omega
      show (if dayNumber cur ≤ dayNumber stop then
          cur :: rangeGo k (nextDay cur) stop else []) = cur :: iterList (nextDay cur) k
      rw [if_pos hle]
      congr 1
      exact ih (nextDay cur) stop (nextDay_valid hv)
        (by rw [dayNumber_nextDay hv]; omega)

lemma iterList_length (k : Nat) : ∀ c : CalDate, (iterList c k).length = k := by
  induction k with
  | zero => intro c; rfl
  | succ k ih => intro c; simp [iterList, ih]

lemma iterList_valid (k : Nat) :
    ∀ c : CalDate, c.Valid → ∀ d ∈ iterList c k, d.Valid := by
  induction k with
  | zero => intro c _ d hd; simp [iterList] at hd
  | succ k ih =>
      intro c hc d hd
      rw [show iterList c (k + 1) = c :: iterList (nextDay c) k from rfl] at hd
      rcases List.mem_cons.mp hd with h | h
      · exact h ▸ hc
      · exact ih (nextDay c) (nextDay_valid hc) d h

lemma iterList_head (k : Nat) (c : CalDate) (hk : 0 < k) :
    (iterList c k).head? = some c := by
  cases k with
  | zero => omega
  | succ k => rfl

lemma iterList_chain (k : Nat) :
    ∀ c : CalDate, c.Valid →
      List.Chain' (fun a b => dayNumber b = dayNumber a + 1) (iterList c k) := by
  induction k with
  | zero => intro c _; simp [iterList]
  | succ k ih =>
      intro c hc
      cases k with
      | zero => simp [iterList]
      | succ k2 =>
          rw [show iterList c (k2 + 1 + 1) =
            c :: nextDay c :: iterList (nextDay (nextDay c)) k2 from rfl]
          rw [List.chain'_cons]
          exact ⟨dayNumber_nextDay hc, ih (nextDay c) (nextDay_valid hc)⟩

lemma iterList_getLast (k : Nat) :
    ∀ c : CalDate, c.Valid → 0 < k →
      ∃ l, (iterList c k).getLast? = some l ∧ l.Valid ∧
        dayNumber l = dayNumber c + (k - 1) := by
  induction k with
  | zero => intro c _ h; omega
  | succ k ih =>
      intro c hc _
      cases k with
      | zero => exact ⟨c, rfl, hc, by omega⟩
      | succ k2 =>
          obtain ⟨l, hl, hlv, hln⟩ := ih (nextDay c) (nextDay_valid hc) (by omega)
          refine ⟨l, ?_, hlv, ?_⟩
          · rw [show iterList c (k2 + 1 + 1) =
              c :: nextDay c :: iterList (nextDay (nextDay c)) k2 from rfl]
            rw [List.getLast?_cons_cons]
            exact hl
          · rw [dayNumber_nextDay hc] at hln
            omega

/-- On valid inputs the range equals the explicit successive-day list. -/
lemma generateDateRange_eq {s e : CalDate} (hs : s.Valid)
    (hle : dayNumber s ≤ dayNumber e) :
    generateDateRange s e = iterList s (dayNumber e - dayNumber s + 1) := by
  unfold generateDateRange
  have hk : dayNumber e + 1 - dayNumber s = dayNumber e - dayNumber s + 1 := by
    omega
  rw [hk]
  exact rangeGo_eq_iterList _ s e hs (by omega)

/-- Claim C1: for valid calendar dates with `startDate <= endDate` (in JS
`Date` order, i.e. `dayNumber` order), `generateDateRange` returns exactly
`(endDate - startDate in days) + 1` dates, forming a strictly increasing
run of consecutive calendar days whose first element is `startDate` and
whose last element is `endDate`; in particular on `(d, d)` it returns
`[d]`. -/
theorem claim_C1 (s e : CalDate) (hs : s.Valid) (he : e.Valid)
    (hle : dayNumber s ≤ dayNumber e) :
    (generateDateRange s e).length = (dayNumber e - dayNumber s) + 1 ∧
    (generateDateRange s e).head? = some s ∧
    (generateDateRange s e).getLast? = some e ∧
    List.Chain' (fun a b => dayNumber b = dayNumber a + 1)
      (generateDateRange s e) ∧
    generateDateRange s s = [s] := by
  have heq := generateDateRange_eq hs hle
  refine ⟨?_, ?_, ?_, ?_, ?_⟩
  · rw [heq, iterList_length]
  · rw [heq, iterList_head _ _ (by omega)]
  · rw [heq]
    obtain ⟨l, hl, hlv, hln⟩ :=
      iterList_getLast (dayNumber e - dayNumber s + 1) s hs (by omega)
    rw [hl]
    have : l = e := dayNumber_inj hlv he (by omega)
    rw [this]
  · rw [heq]
    exact iterList_chain _ s hs
  · have h0 := generateDateRange_eq hs (le_refl (dayNumber s))
    simpa using h0

/-- Witness for C1 at the concrete trip range 2024-07-14 .. 2024-07-16. -/
theorem claim_C1_witness :
    (CalDate.Valid ⟨2024, 7, 14⟩ ∧ CalDate.Valid ⟨2024, 7, 16⟩ ∧
      dayNumber ⟨2024, 7, 14⟩ ≤ dayNumber ⟨2024, 7, 16⟩) ∧
    ((generateDateRange ⟨2024, 7, 14⟩ ⟨2024, 7, 16⟩).length =
        (dayNumber ⟨2024, 7, 16⟩ - dayNumber ⟨2024, 7, 14⟩) + 1 ∧
      (generateDateRange ⟨2024, 7, 14⟩ ⟨2024, 7, 16⟩).head? =
        some ⟨2024, 7, 14⟩ ∧
      (generateDateRange ⟨2024, 7, 14⟩ ⟨2024, 7, 16⟩).getLast? =
        some ⟨2024, 7, 16⟩ ∧
      List.Chain' (fun a b => dayNumber b = dayNumber a + 1)
        (generateDateRange ⟨2024, 7, 14⟩ ⟨2024, 7, 16⟩) ∧
      generateDateRange ⟨2024, 7, 14⟩ ⟨2024, 7, 14⟩ = [⟨2024, 7, 14⟩]) :=
  ⟨⟨by decide, by decide, by decide⟩,
    claim_C1 ⟨2024, 7, 14⟩ ⟨2024, 7, 16⟩ (by decide) (by decide) (by decide)⟩

/-- Counterexample to claim C2: on a reversed range the code raises
nothing; `generateDateRange` simply returns the empty list (the loop
condition fails immediately), so no `InvalidRangeError` exists anywhere in
its behavior. -/
theorem claim_C2_counterexample :
    generateDateRange ⟨2024, 7, 16⟩ ⟨2024, 7, 14⟩ = [] := by decide

/-- Claim C2 as amended: for valid calendar dates with
`endDate < startDate`, `generateDateRange` raises no error and returns the
empty sequence. -/
theorem claim_C2_amended (s e : CalDate) (hs : s.Valid) (he : e.Valid)
    (hlt : dayNumber e < dayNumber s) : generateDateRange s e = [] := by
  unfold generateDateRange
  have hk : dayNumber e + 1 - dayNumber s = 0 := by omega
  rw [hk]
  rfl

/-- Witness for the amended C2. -/
theorem claim_C2_amended_witness :
    (CalDate.Valid ⟨2025, 1, 2⟩ ∧ CalDate.Valid ⟨2025, 1, 1⟩ ∧
      dayNumber ⟨2025, 1, 1⟩ < dayNumber ⟨2025, 1, 2⟩) ∧
    generateDateRange ⟨2025, 1, 2⟩ ⟨2025, 1, 1⟩ = [] :=
  ⟨⟨by decide, by decide, by decide⟩,
    claim_C2_amended ⟨2025, 1, 2⟩ ⟨2025, 1, 1⟩ (by decide) (by decide)
      (by decide)⟩

/-- Claim C10: for valid calendar dates with `endDate < startDate`,
`generateDateRange` returns a zero-length list of dates — the iteration
condition fails immediately and no failure occurs. -/
theorem claim_C10 (s e : CalDate) (hs : s.Valid) (he : e.Valid)
    (hlt : dayNumber e < dayNumber s) :
    (generateDateRange s e).length = 0 ∧ generateDateRange s e = [] := by
  unfold generateDateRange
  have hk : dayNumber e + 1 - dayNumber s = 0 := by omega
  rw [hk]
  exact ⟨rfl, rfl⟩

/-- Witness for C10. -/
theorem claim_C10_witness :
    (CalDate.Valid ⟨2024, 3, 1⟩ ∧ CalDate.Valid ⟨2024, 2, 29⟩ ∧
      dayNumber ⟨2024, 2, 29⟩ < dayNumber ⟨2024, 3, 1⟩) ∧
    ((generateDateRange ⟨2024, 3, 1⟩ ⟨2024, 2, 29⟩).length = 0 ∧
      generateDateRange ⟨2024, 3, 1⟩ ⟨2024, 2, 29⟩ = []) :=
  ⟨⟨by decide, by decide, by decide⟩,
    claim_C10 ⟨2024, 3, 1⟩ ⟨2024, 2, 29⟩ (by decide) (by decide) (by decide)⟩

/-! ### Decimal formatting: JS `String(n)` and `String(n).padStart(2, "0")` -/

/-- The decimal digit character for `n < 10`. -/
def digitChar (n : Nat) : Char := Char.ofNat (48 + n)

/-- Little-endian decimal digits of `n`, with explicit fuel (the fuel is
always called with `fuel = n`, which suffices since `n / 10 < n`). -/
def digitsGo : Nat → Nat → List Nat
  | 0, _ => []
  | fuel + 1, n => if n = 0 then [] else n % 10 :: digitsGo fuel (n / 10)

/-- Embedding of JS `String(n)` for a natural number: its decimal digits. -/
def natStr (n : Nat) : String :=
  if n = 0 then "0" else String.mk (((digitsGo n n).reverse).map digitChar)

/-- Embedding of JS `String(n).padStart(2, "0")`. -/
def pad2 (n : Nat) : String :=
  if (natStr n).length < 2 then "0" ++ natStr n else natStr n

/-- The `dateStr` computation of `createDayCardData`:
`getFullYear() + "-" + pad2 (getMonth() + 1) + "-" + pad2 (getDate())`. -/
def dateStrOf (d : CalDate) : String :=
  natStr d.year ++ "-" ++ pad2 d.month ++ "-" ++ pad2 d.day

/-- Value of a little-endian digit list. -/
def undigits : List Nat → Nat
  | [] => 0
  | a :: l => a + 10 * undigits l

lemma digitsGo_undigits : ∀ fuel n, n ≤ fuel → undigits (digitsGo fuel n) = n := by
  intro fuel
  induction fuel with
  | zero =>
      intro n h
      interval_cases n
      rfl
  | succ fuel ih =>
      intro n h
      by_cases h0 : n = 0
      · subst h0; rfl
      · rw [show digitsGo (fuel + 1) n = n % 10 :: digitsGo fuel (n / 10) from
          by simp [digitsGo, h0]]
        rw [show undigits (n % 10 :: digitsGo fuel (n / 10)) =
          n % 10 + 10 * undigits (digitsGo fuel (n / 10)) from rfl]
        rw [ih (n / 10) (by omega)]
        omega

lemma digitsGo_lt10 : ∀ fuel n, ∀ d ∈ digitsGo fuel n, d < 10 := by
  intro fuel
  induction fuel with
  | zero => intro n d hd; simp [digitsGo] at hd
  | succ fuel ih =>
      intro n d hd
      by_cases h0 : n = 0
      · subst h0; simp [digitsGo] at hd
      · rw [show digitsGo (fuel + 1) n = n % 10 :: digitsGo fuel (n / 10) from
          by simp [digitsGo, h0]] at hd
        rcases List.mem_cons.mp hd with h | h
        · omega
        · exact ih (n / 10) d h

lemma digitChar_inj {a b : Nat} (ha : a < 10) (hb : b < 10)
    (h : digitChar a = digitChar b) : a = b := by
  interval_cases a <;> interval_cases b <;> revert h <;> decide

lemma map_digitChar_inj : ∀ l1 l2 : List Nat, (∀ d ∈ l1, d < 10) →
    (∀ d ∈ l2, d < 10) → l1.map digitChar = l2.map digitChar → l1 = l2 := by
  intro l1
  induction l1 with
  | nil => intro l2 _ _ h; cases l2 <;> simp_all
  | cons a l ih =>
      intro l2 h1 h2 h
      cases l2 with
      | nil => simp_all
      | cons b l2' =>
          simp only [List.map_cons, List.cons.injEq] at h
          have ha : a = b := digitChar_inj (h1 a (by simp)) (h2 b (by simp)) h.1
          have hl : l = l2' :=
            ih l2' (fun d hd => h1 d (by simp [hd])) (fun d hd => h2 d (by simp [hd]))
              h.2
          rw [ha, hl]

lemma natStr_inj : ∀ m n : Nat, natStr m = natStr n → m = n := by
  have key : ∀ m n : Nat, m ≠ 0 → n ≠ 0 →
      ((digitsGo m m).reverse).map digitChar = ((digitsGo n n).reverse).map digitChar →
      m = n := by
    intro m n hm hn h
    have hrev : (digitsGo m m).reverse = (digitsGo n n).reverse :=
      map_digitChar_inj _ _
        (fun d hd => digitsGo_lt10 m m d (List.mem_reverse.mp hd))
        (fun d hd => digitsGo_lt10 n n d (List.mem_reverse.mp hd)) h
    have hdig : digitsGo m m = digitsGo n n := List.reverse_inj.mp hrev
    have h1 := digitsGo_undigits m m (le_refl m)
    have h2 := digitsGo_undigits n n (le_refl n)
    rw [hdig] at h1
    omega
  intro m n h
  by_cases hm : m = 0 <;> by_cases hn : n = 0
  · omega
  · exfalso
    subst hm
    unfold natStr at h
    rw [if_pos rfl, if_neg hn] at h
    have hdata : ('0' :: []) = ((digitsGo n n).reverse).map digitChar :=
      congrArg String.data h
    have hn' : n = 0 := by
      have h1 := digitsGo_undigits n n (le_refl n)
      have : (digitsGo n n).reverse = [0] := by
        apply map_digitChar_inj
        · intro d hd; exact digitsGo_lt10 n n d (List.mem_reverse.mp hd)
        · intro d hd; simp at hd; omega
        · rw [← hdata]; rfl
      have : digitsGo n n = [0] := by
        have := congrArg List.reverse this
        simpa using this
      rw [this] at h1
      simp [undigits] at h1
      omega
    exact absurd hn' hn
  · exfalso
    subst hn
    unfold natStr at h
    rw [if_pos rfl, if_neg hm] at h
    have hdata : ((digitsGo m m).reverse).map digitChar = ('0' :: []) :=
      congrArg String.data h
    have hm' : m = 0 := by
      have h1 := digitsGo_undigits m m (le_refl m)
      have : (digitsGo m m).reverse = [0] := by
        apply map_digitChar_inj
        · intro d hd; exact digitsGo_lt10 m m d (List.mem_reverse.mp hd)
        · intro d hd; simp at hd; omega
        · rw [hdata]; rfl
      have : digitsGo m m = [0] := by
        have := congrArg List.reverse this
        simpa using this
      rw [this] at h1
      simp [undigits] at h1
      omega
    exact absurd hm' hm
  · unfold natStr at h
    rw [if_neg hm, if_neg hn] at h
    exact key m n hm hn (congrArg String.data h)

lemma pad2_length : ∀ n < 32, (pad2 n).length = 2 := by decide

lemma pad2_inj : ∀ a < 32, ∀ b < 32, pad2 a = pad2 b → a = b := by decide

/-- The `YYYY-MM-DD` key is injective on valid dates: two distinct valid
calendar dates never produce the same `dateStr`. -/
lemma dateStrOf_inj {d1 d2 : CalDate} (h1 : d1.Valid) (h2 : d2.Valid)
    (h : dateStrOf d1 = dateStrOf d2) : d1 = d2 := by
  obtain ⟨y1, m1, dd1⟩ := d1
  obtain ⟨y2, m2, dd2⟩ := d2
  rw [CalDate.valid_mk] at h1 h2
  obtain ⟨hy1, hm11, hm12, hdd11, hdd12⟩ := h1
  obtain ⟨hy2, hm21, hm22, hdd21, hdd22⟩ := h2
  have hb1 : dd1 ≤ 31 := le_trans hdd12 (daysInMonth_le _ _)
  have hb2 : dd2 ≤ 31 := le_trans hdd22 (daysInMonth_le _ _)
  have hdata := congrArg String.data h
  dsimp only [dateStrOf] at hdata
  simp only [String.data_append, show ("-" : String).data = ['-'] from rfl,
    List.append_assoc, List.cons_append, List.nil_append] at hdata
  have hlen : ('-' :: ((pad2 m1).data ++ '-' :: (pad2 dd1).data)).length =
      ('-' :: ((pad2 m2).data ++ '-' :: (pad2 dd2).data)).length := by
    simp only [List.length_append, List.length_cons]
    have e1 : (pad2 m1).data.length = 2 := pad2_length m1 (by omega)
    have e2 : (pad2 m2).data.length = 2 := pad2_length m2 (by omega)
    have e3 : (pad2 dd1).data.length = 2 := pad2_length dd1 (by omega)
    have e4 : (pad2 dd2).data.length = 2 := pad2_length dd2 (by omega)
    omega
  obtain ⟨hys, hrest⟩ := List.append_inj' hdata hlen
  have hyeq : y1 = y2 := natStr_inj _ _ (String.ext hys)
  simp only [List.cons.injEq, true_and] at hrest
  have hlen2 : ((pad2 m1).data).length = ((pad2 m2).data).length := by
    have e1 : (pad2 m1).length = 2 := pad2_length m1 (by omega)
    have e2 : (pad2 m2).length = 2 := pad2_length m2 (by omega)
    exact e1.trans e2.symm
  obtain ⟨hms, hrest2⟩ := List.append_inj hrest hlen2
  have hmeq : m1 = m2 := pad2_inj m1 (by omega) m2 (by omega) (String.ext hms)
  simp only [List.cons.injEq, true_and] at hrest2
  have hdeq : dd1 = dd2 := pad2_inj dd1 (by omega) dd2 (by omega) (String.ext hrest2)
  rw [hyeq, hmeq, hdeq]

/-! ### Trip data model and the day view model builder -/

/-- An arrival record: `{date, time, name}` with `date` a `YYYY-MM-DD`
string as stored on trip events. -/
structure ArrivalEvent where
  date : String
  time : String
  name : String
deriving DecidableEq

/-- A departure record: `{date, time, name}`. -/
structure DepartureEvent where
  date : String
  time : String
  name : String
deriving DecidableEq

/-- An activity record: `{date, startTime, endTime?, name}`; `endTime` may
be absent (`none`). -/
structure ActivityEvent where
  date : String
  startTime : String
  endTime : Option String
  name : String
deriving DecidableEq

/-- A trip record.  `startDate`/`endDate` hold the calendar dates that
`new Date(trip.startDate + "T00:00:00")` parses to; each event collection
may be `undefined` on the JS side, modeled by `Option`. -/
structure Trip where
  name : String
  startDate : CalDate
  endDate : CalDate
  arrivals : Option (List ArrivalEvent)
  activities : Option (List ActivityEvent)
  departures : Option (List DepartureEvent)
deriving DecidableEq

/-- A rendering-ready event: `{type, time, description, icon}`. -/
structure DisplayEvent where
  type : String
  time : String
  description : String
  icon : String
deriving DecidableEq

/-- The per-day view model produced by `createDayCardData`. -/
structure DayCard where
  date : CalDate
  dateStr : String
  title : String
  events : List DisplayEvent
deriving DecidableEq

/-- English weekday names, indexed with 0 = Sunday. -/
def weekdayName : Nat → String
  | 0 => "Sunday"
  | 1 => "Monday"
  | 2 => "Tuesday"
  | 3 => "Wednesday"
  | 4 => "Thursday"
  | 5 => "Friday"
  | 6 => "Saturday"
  | _ => ""

/-- English month names, 1-based. -/
def monthName : Nat → String
  | 1 => "January"
  | 2 => "February"
  | 3 => "March"
  | 4 => "April"
  | 5 => "May"
  | 6 => "June"
  | 7 => "July"
  | 8 => "August"
  | 9 => "September"
  | 10 => "October"
  | 11 => "November"
  | 12 => "December"
  | _ => ""

/-- Embedding of
`date.toLocaleDateString("en-US", {weekday: "long", month: "long", day: "numeric"})`,
e.g. `"Sunday, July 14"`.  The weekday comes from the day count (day 719468,
1970-01-01, was a Thursday, hence the offset 3 with 0 = Sunday). -/
def localeTitle (d : CalDate) : String :=
  weekdayName ((dayNumber d + 3) % 7) ++ ", " ++ monthName d.month ++ " " ++
    natStr d.day

/-- The display record pushed for a matching arrival. -/
def displayArrival (a : ArrivalEvent) : DisplayEvent :=
  { type := "arrival", time := a.time, description := a.name ++ " arrives",
    icon := "🛬" }

/-- The time string of an activity: JS
`activity.endTime ? startTime + " - " + endTime : startTime` (an empty
`endTime` string is falsy and is treated like an absent one). -/
def activityTimeStr (a : ActivityEvent) : String :=
  match a.endTime with
  | some t => if t = "" then a.startTime else a.startTime ++ " - " ++ t
  | none => a.startTime

/-- The display record pushed for a matching activity. -/
def displayActivity (a : ActivityEvent) : DisplayEvent :=
  { type := "activity", time := activityTimeStr a, description := a.name,
    icon := "📅" }

/-- The display record pushed for a matching departure. -/
def displayDeparture (x : DepartureEvent) : DisplayEvent :=
  { type := "departure", time := x.time, description := x.name ++ " departs",
    icon := "🛫" }

/-- Embedding of the html2pdf-variant `createDayCardData(date, trip)`
(src/exportdata.js lines 656-717): compute the `YYYY-MM-DD` key and the
locale title, then push the display records of the matching arrivals,
activities and departures, in that order, guarding each collection with
`if (trip.arrivals)` etc. (a missing collection contributes nothing).  The
sequential `forEach` pushes are rendered as left folds appending one
element at a time. -/
def createDayCardData (date : CalDate) (trip : Trip) : DayCard :=
  let dateStr := dateStrOf date
  let ev1 : List DisplayEvent :=
    match trip.arrivals with
    | some arr =>
        (arr.filter (fun a => a.date = dateStr)).foldl
          (fun acc a => acc ++ [displayArrival a]) []
    | none => []
  let ev2 : List DisplayEvent :=
    match trip.activities with
    | some acts =>
        (acts.filter (fun a => a.date = dateStr)).foldl
          (fun acc a => acc ++ [displayActivity a]) ev1
    | none => ev1
  let ev3 : List DisplayEvent :=
    match trip.departures with
    | some deps =>
        (deps.filter (fun x => x.date = dateStr)).foldl
          (fun acc x => acc ++ [displayDeparture x]) ev2
    | none => ev2
  { date := date, dateStr := dateStr, title := localeTitle date, events := ev3 }

/-- JS member access `xs.filter` on a possibly-undefined collection: on
`undefined` it raises a `TypeError`. -/
def jsMember {α : Type} : Option (List α) → Except String (List α)
  | some l => Except.ok l
  | none => Except.error "TypeError: Cannot read properties of undefined"

/-- Embedding of the jsPDF-variant `createDayCardData(date, trip)`
(src/exportdata.js lines 169-223): identical event building, but the three
collections are accessed unguarded (`trip.arrivals.filter(...)`), so a
missing collection raises a `TypeError`, modeled as `Except.error`. -/
def createDayCardDataV1 (date : CalDate) (trip : Trip) :
    Except String DayCard := do
  let dateStr := dateStrOf date
  let arr ← jsMember trip.arrivals
  let ev1 := (arr.filter (fun a => a.date = dateStr)).foldl
    (fun acc a => acc ++ [displayArrival a]) []
  let acts ← jsMember trip.activities
  let ev2 := (acts.filter (fun a => a.date = dateStr)).foldl
    (fun acc a => acc ++ [displayActivity a]) ev1
  let deps ← jsMember trip.departures
  let ev3 := (deps.filter (fun x => x.date = dateStr)).foldl
    (fun acc x => acc ++ [displayDeparture x]) ev2
  return { date := date, dateStr := dateStr, title := localeTitle date,
           events := ev3 }

/-- A fold of one-element pushes is the initial list followed by the map. -/
lemma foldl_push_eq {α β : Type} (f : α → β) :
    ∀ (l : List α) (init : List β),
      l.foldl (fun acc a => acc ++ [f a]) init = init ++ l.map f := by
  intro l
  induction l with
  | nil => intro init; simp
  | cons a l ih =>
      intro init
      rw [List.foldl_cons, ih, List.map_cons]
      simp

lemma createDayCardData_dateStr (date : CalDate) (trip : Trip) :
    (createDayCardData date trip).dateStr = dateStrOf date := rfl

lemma createDayCardData_date (date : CalDate) (trip : Trip) :
    (createDayCardData date trip).date = date := rfl

/-- The events of a day card: matching arrivals, then matching activities,
then matching departures, each in collection order. -/
lemma createDayCardData_events (date : CalDate) (trip : Trip) :
    (createDayCardData date trip).events =
      ((trip.arrivals.getD []).filter
          (fun a => a.date = dateStrOf date)).map displayArrival ++
      ((trip.activities.getD []).filter
          (fun a => a.date = dateStrOf date)).map displayActivity ++
      ((trip.departures.getD []).filter
          (fun x => x.date = dateStrOf date)).map displayDeparture := by
  unfold createDayCardData
  cases trip.arrivals <;> cases trip.activities <;> cases trip.departures <;>
    simp [foldl_push_eq, Option.getD]

/-! ### Each event lands in exactly the day whose key matches its date -/

lemma iterList_mem_dn (k : Nat) :
    ∀ c : CalDate, c.Valid → ∀ d ∈ iterList c k, dayNumber c ≤ dayNumber d := by
  induction k with
  | zero => intro c _ d hd; simp [iterList] at hd
  | succ k ih =>
      intro c hc d hd
      rw [show iterList c (k + 1) = c :: iterList (nextDay c) k from rfl] at hd
      rcases List.mem_cons.mp hd with h | h
      · exact le_of_eq (congrArg dayNumber h.symm)
      · have := ih (nextDay c) (nextDay_valid hc) d h
        rw [dayNumber_nextDay hc] at this
        omega

lemma iterList_pairwise (k : Nat) :
    ∀ c : CalDate, c.Valid →
      (iterList c k).Pairwise (fun a b => dayNumber a < dayNumber b) := by
  induction k with
  | zero => intro c _; simp [iterList]
  | succ k ih =>
      intro c hc
      rw [show iterList c (k + 1) = c :: iterList (nextDay c) k from rfl]
      rw [List.pairwise_cons]
      constructor
      · intro d hd
        have := iterList_mem_dn k (nextDay c) (nextDay_valid hc) d hd
        rw [dayNumber_nextDay hc] at this
        omega
      · exact ih (nextDay c) (nextDay_valid hc)

/-- Distinct valid dates have distinct keys, so the day keys of any list of
valid dates with strictly increasing day numbers are pairwise distinct. -/
lemma nodup_keys : ∀ l : List CalDate, (∀ d ∈ l, d.Valid) →
    l.Pairwise (fun a b => dayNumber a < dayNumber b) →
    (l.map dateStrOf).Nodup := by
  intro l
  induction l with
  | nil => intro _ _; simp
  | cons c l ih =>
      intro hv hp
      rw [List.pairwise_cons] at hp
      rw [List.map_cons, List.nodup_cons]
      constructor
      · intro hmem
        obtain ⟨d, hd, hds⟩ := List.mem_map.mp hmem
        have hcd : d = c :=
          dateStrOf_inj (hv d (by simp [hd])) (hv c (by simp)) hds
        have := hp.1 d hd
        rw [hcd] at this
        omega
      · exact ih (fun d hd => hv d (by simp [hd])) hp.2

lemma filter_key_length (x : String) :
    ∀ keys : List String, keys.Nodup →
      (keys.filter (fun k => x = k)).length = if x ∈ keys then 1 else 0 := by
  intro keys
  induction keys with
  | nil => intro _; simp
  | cons k ks ih =>
      intro hn
      rw [List.nodup_cons] at hn
      by_cases hx : x = k
      · subst hx
        simp [List.filter_cons, ih hn.2, hn.1]
      · simp [List.filter_cons, hx, ih hn.2]

lemma filter_cards_eq (trip : Trip) (x : String) :
    ∀ days : List CalDate,
      ((days.map (fun d => createDayCardData d trip)).filter
          (fun c => x = c.dateStr)).length =
        ((days.map dateStrOf).filter (fun k => x = k)).length := by
  intro days
  induction days with
  | nil => rfl
  | cons d days ih =>
      rw [List.map_cons, List.map_cons, List.filter_cons, List.filter_cons]
      rw [createDayCardData_dateStr]
      cases h : decide (x = dateStrOf d) <;> simp [h, ih]

/-- Claim C3: for a trip whose (valid) dates satisfy
`startDate <= endDate`, every event of each collection whose `date` equals
the key of some generated day is collected by exactly one day card — the
one whose key matches — under the display mapping of its own category; an event
whose date matches no generated day is collected by no card. -/
theorem claim_C3 (trip : Trip) (hs : trip.startDate.Valid)
    (he : trip.endDate.Valid)
    (hle : dayNumber trip.startDate ≤ dayNumber trip.endDate) :
    (∀ a ∈ trip.arrivals.getD [],
      (((generateDateRange trip.startDate trip.endDate).map
          (fun d => createDayCardData d trip)).filter
            (fun c => a.date = c.dateStr)).length =
        (if a.date ∈ (generateDateRange trip.startDate trip.endDate).map
            dateStrOf then 1 else 0) ∧
      ∀ c ∈ (generateDateRange trip.startDate trip.endDate).map
          (fun d => createDayCardData d trip),
        a.date = c.dateStr → displayArrival a ∈ c.events) ∧
    (∀ a ∈ trip.activities.getD [],
      (((generateDateRange trip.startDate trip.endDate).map
          (fun d => createDayCardData d trip)).filter
            (fun c => a.date = c.dateStr)).length =
        (if a.date ∈ (generateDateRange trip.startDate trip.endDate).map
            dateStrOf then 1 else 0) ∧
      ∀ c ∈ (generateDateRange trip.startDate trip.endDate).map
          (fun d => createDayCardData d trip),
        a.date = c.dateStr → displayActivity a ∈ c.events) ∧
    (∀ x ∈ trip.departures.getD [],
      (((generateDateRange trip.startDate trip.endDate).map
          (fun d => createDayCardData d trip)).filter
            (fun c => x.date = c.dateStr)).length =
        (if x.date ∈ (generateDateRange trip.startDate trip.endDate).map
            dateStrOf then 1 else 0) ∧
      ∀ c ∈ (generateDateRange trip.startDate trip.endDate).map
          (fun d => createDayCardData d trip),
        x.date = c.dateStr → displayDeparture x ∈ c.events) := by
  have hv : ∀ d ∈ generateDateRange trip.startDate trip.endDate, d.Valid := by
    rw [generateDateRange_eq hs hle]
    exact iterList_valid _ trip.startDate hs
  have hpw : (generateDateRange trip.startDate trip.endDate).Pairwise
      (fun a b => dayNumber a < dayNumber b) := by
    rw [generateDateRange_eq hs hle]
    exact iterList_pairwise _ trip.startDate hs
  have hnd := nodup_keys _ hv hpw
  refine ⟨?_, ?_, ?_⟩
  · intro a _
    refine ⟨?_, ?_⟩
    · rw [filter_cards_eq]
      exact filter_key_length a.date _ hnd
    · intro c hc heq
      obtain ⟨d, hd, rfl⟩ := List.mem_map.mp hc
      rw [createDayCardData_dateStr] at heq
      rw [createDayCardData_events]
      apply List.mem_append_left
      apply List.mem_append_left
      apply List.mem_map_of_mem
      rename_i ha
      exact List.mem_filter.mpr ⟨ha, by simp [heq]⟩
  · intro a _
    refine ⟨?_, ?_⟩
    · rw [filter_cards_eq]
      exact filter_key_length a.date _ hnd
    · intro c hc heq
      obtain ⟨d, hd, rfl⟩ := List.mem_map.mp hc
      rw [createDayCardData_dateStr] at heq
      rw [createDayCardData_events]
      apply List.mem_append_left
      apply List.mem_append_right
      apply List.mem_map_of_mem
      rename_i ha
      exact List.mem_filter.mpr ⟨ha, by simp [heq]⟩
  · intro x _
    refine ⟨?_, ?_⟩
    · rw [filter_cards_eq]
      exact filter_key_length x.date _ hnd
    · intro c hc heq
      obtain ⟨d, hd, rfl⟩ := List.mem_map.mp hc
      rw [createDayCardData_dateStr] at heq
      rw [createDayCardData_events]
      apply List.mem_append_right
      apply List.mem_map_of_mem
      rename_i ha
      exact List.mem_filter.mpr ⟨ha, by simp [heq]⟩

/-- A concrete trip used by witnesses: 2024-07-14 .. 2024-07-16 with one
arrival, one timed activity and one departure. -/
def tripW : Trip :=
  { name := "Summer"
    startDate := ⟨2024, 7, 14⟩
    endDate := ⟨2024, 7, 16⟩
    arrivals := some [⟨"2024-07-14", "10:00", "Alice"⟩]
    activities := some [⟨"2024-07-15", "09:00", some "11:00", "Museum"⟩]
    departures := some [⟨"2024-07-16", "12:00", "Alice"⟩] }

/-- Witness for C3: the hypotheses hold for `tripW`, and its arrival lands
in exactly one day card. -/
theorem claim_C3_witness :
    (tripW.startDate.Valid ∧ tripW.endDate.Valid ∧
      dayNumber tripW.startDate ≤ dayNumber tripW.endDate) ∧
    ∀ a ∈ tripW.arrivals.getD [],
      (((generateDateRange tripW.startDate tripW.endDate).map
          (fun d => createDayCardData d tripW)).filter
            (fun c => a.date = c.dateStr)).length =
        (if a.date ∈ (generateDateRange tripW.startDate tripW.endDate).map
            dateStrOf then 1 else 0) ∧
      ∀ c ∈ (generateDateRange tripW.startDate tripW.endDate).map
          (fun d => createDayCardData d tripW),
        a.date = c.dateStr → displayArrival a ∈ c.events :=
  ⟨⟨by decide, by decide, by decide⟩,
    (claim_C3 tripW (by decide) (by decide) (by decide)).1⟩

/-- Claim C4: the events of a day card are exactly the matching arrivals, then
the matching activities, then the matching departures, each group in its
original collection order (no time sort); arrivals show icon 🛬 and
description `{name} arrives`, departures show icon 🛫 and
`{name} departs`, and activities show icon 📅, the unmodified name, and a
time of `startTime` alone when `endTime` is absent (or the falsy empty
string), else `startTime - endTime`. -/
theorem claim_C4 (date : CalDate) (trip : Trip) :
    ((createDayCardData date trip).events =
      ((trip.arrivals.getD []).filter
          (fun a => a.date = dateStrOf date)).map displayArrival ++
      ((trip.activities.getD []).filter
          (fun a => a.date = dateStrOf date)).map displayActivity ++
      ((trip.departures.getD []).filter
          (fun x => x.date = dateStrOf date)).map displayDeparture) ∧
    (∀ a : ArrivalEvent, displayArrival a =
      { type := "arrival", time := a.time,
        description := a.name ++ " arrives", icon := "🛬" }) ∧
    (∀ x : DepartureEvent, displayDeparture x =
      { type := "departure", time := x.time,
        description := x.name ++ " departs", icon := "🛫" }) ∧
    (∀ a : ActivityEvent, (displayActivity a).type = "activity" ∧
      (displayActivity a).icon = "📅" ∧
      (displayActivity a).description = a.name) ∧
    (∀ a : ActivityEvent, a.endTime = none →
      (displayActivity a).time = a.startTime) ∧
    (∀ a : ActivityEvent, a.endTime = some "" →
      (displayActivity a).time = a.startTime) ∧
    (∀ (a : ActivityEvent) (t : String), a.endTime = some t → t ≠ "" →
      (displayActivity a).time = a.startTime ++ " - " ++ t) := by
  refine ⟨createDayCardData_events date trip, fun a => rfl, fun x => rfl,
    fun a => ⟨rfl, rfl, rfl⟩, ?_, ?_, ?_⟩
  · intro a h
    simp [displayActivity, activityTimeStr, h]
  · intro a h
    simp [displayActivity, activityTimeStr, h]
  · intro a t h ht
    simp [displayActivity, activityTimeStr, h, ht]

/-- Witness for C4: the timed activity of `tripW` displays as
`09:00 - 11:00`. -/
theorem claim_C4_witness :
    ((⟨"2024-07-15", "09:00", some "11:00", "Museum"⟩ :
        ActivityEvent).endTime = some "11:00" ∧ ("11:00" : String) ≠ "") ∧
    (displayActivity ⟨"2024-07-15", "09:00", some "11:00", "Museum"⟩).time =
      "09:00" ++ " - " ++ "11:00" :=
  ⟨⟨rfl, by decide⟩,
    (claim_C4 ⟨2024, 7, 15⟩ tripW).2.2.2.2.2.2
      ⟨"2024-07-15", "09:00", some "11:00", "Museum"⟩ "11:00" rfl (by decide)⟩

/-- Counterexample to claim C5: in the jsPDF variant (lines 169-223) the
collections are accessed unguarded, so a trip with `arrivals` undefined
makes `createDayCardData` throw a `TypeError` instead of returning a day
view model. -/
theorem claim_C5_counterexample :
    createDayCardDataV1 ⟨2024, 7, 14⟩
      ⟨"T", ⟨2024, 7, 14⟩, ⟨2024, 7, 16⟩, none, some [], some []⟩ =
      Except.error "TypeError: Cannot read properties of undefined" := rfl

/-- Claim C5 as amended: in the html2pdf variant `createDayCardData` treats
missing collections as empty and always returns a day view model (it equals
the run on the trip with every missing collection replaced by `[]`); the
jsPDF variant instead raises a `TypeError` as soon as any collection is
missing, and agrees with the guarded variant when all three are present. -/
theorem claim_C5_amended (date : CalDate) (trip : Trip) :
    (createDayCardData date trip = createDayCardData date
      { name := trip.name, startDate := trip.startDate,
        endDate := trip.endDate,
        arrivals := some (trip.arrivals.getD []),
        activities := some (trip.activities.getD []),
        departures := some (trip.departures.getD []) }) ∧
    (trip.arrivals = none ∨ trip.activities = none ∨ trip.departures = none →
      ∃ msg, createDayCardDataV1 date trip = Except.error msg) ∧
    (∀ la lb lc, trip.arrivals = some la → trip.activities = some lb →
      trip.departures = some lc →
      createDayCardDataV1 date trip =
        Except.ok (createDayCardData date trip)) := by
  obtain ⟨nm, sd, ed, oa, ob, oc⟩ := trip
  refine ⟨?_, ?_, ?_⟩
  · cases oa <;> cases ob <;> cases oc <;> rfl
  · intro h
    cases oa with
    | none => exact ⟨_, rfl⟩
    | some la =>
        cases ob with
        | none => exact ⟨_, rfl⟩
        | some lb =>
            cases oc with
            | none => exact ⟨_, rfl⟩
            | some lc => rcases h with h | h | h <;> simp_all
  · intro la lb lc ha hb hc
    cases ha
    cases hb
    cases hc
    rfl

/-- Witness for the amended C5: a trip with `arrivals` undefined is fatal
for the jsPDF variant. -/
theorem claim_C5_amended_witness :
    ((Trip.mk "T" ⟨2024, 7, 14⟩ ⟨2024, 7, 16⟩ none (some [])
        (some [])).arrivals = none ∨
      (Trip.mk "T" ⟨2024, 7, 14⟩ ⟨2024, 7, 16⟩ none (some [])
        (some [])).activities = none ∨
      (Trip.mk "T" ⟨2024, 7, 14⟩ ⟨2024, 7, 16⟩ none (some [])
        (some [])).departures = none) ∧
    ∃ msg, createDayCardDataV1 ⟨2024, 7, 15⟩
      (Trip.mk "T" ⟨2024, 7, 14⟩ ⟨2024, 7, 16⟩ none (some []) (some [])) =
        Except.error msg :=
  ⟨Or.inl rfl,
    (claim_C5_amended ⟨2024, 7, 15⟩
      (Trip.mk "T" ⟨2024, 7, 14⟩ ⟨2024, 7, 16⟩ none (some []) (some []))).2.1
      (Or.inl rfl)⟩

/-! ### The pagination loop of `generatePDF` -/

/-- The estimated card height of `addDayCardToPDF` (line 227):
`20 + events.length * 12 + (events.length === 0 ? 10 : 0)` — base height
20, 12 per event, plus 10 for the `No events` placeholder line. -/
def cardHeight (card : DayCard) : Nat :=
  20 + card.events.length * 12 + (if card.events.length = 0 then 10 else 0)

/-- The pagination loop of `generatePDF` (src/exportdata.js lines 85-101),
as a page plan: walking the day cards with index `i` and running
y-position, a new page starts at index `i > 0` when `i % 3 = 0` **or**
`currentY > pageHeight - 100` (A4 `pageHeight = 297`, so the threshold is
197); placing a card advances y by its height (`addDayCardToPDF` returns
`y + cardHeight`) plus the 15mm spacing, and a fresh page restarts y at the
15mm margin. -/
def planGo : List DayCard → Nat → Nat → List DayCard → List (List DayCard) →
    List (List DayCard)
  | [], _, _, cur, pages => pages ++ [cur]
  | c :: rest, i, y, cur, pages =>
      if 0 < i ∧ (i % 3 = 0 ∨ 297 - 100 < y) then
        planGo rest (i + 1) (15 + cardHeight c + 15) [c] (pages ++ [cur])
      else
        planGo rest (i + 1) (y + cardHeight c + 15) (cur ++ [c]) pages

/-- The page plan of the day cards: the grouping of the day cards by the
`pdf.addPage()` calls of the loop of `generatePDF` (initial y is the top
margin, 15). -/
def generatePDFPages (cards : List DayCard) : List (List DayCard) :=
  planGo cards 0 15 [] []

lemma planGo_flatten :
    ∀ (cards : List DayCard) (i y : Nat) (cur : List DayCard)
      (pages : List (List DayCard)),
      (planGo cards i y cur pages).flatten = pages.flatten ++ cur ++ cards := by
  intro cards
  induction cards with
  | nil => intro i y cur pages; simp [planGo]
  | cons c rest ih =>
      intro i y cur pages
      simp only [planGo]
      split
      · rw [ih]
        simp
      · rw [ih]
        simp

/-- The concatenation of the planned pages is the original card list. -/
lemma generatePDFPages_flatten (cards : List DayCard) :
    (generatePDFPages cards).flatten = cards := by
  unfold generatePDFPages
  rw [planGo_flatten]
  simp

/-- Claim C8: the planner never splits a day card — each card is an atomic
element of exactly one page — and concatenating the pages in order yields
the original day sequence, preserving order across and within pages. -/
theorem claim_C8 (cards : List DayCard) :
    (generatePDFPages cards).flatten = cards :=
  generatePDFPages_flatten cards

/-- Counterexample to claim C6: the estimated height of a zero-event day card is
`20 + 0 * 12 + 10 = 30`, not the claimed bare `itemBaseHeight = 20`. -/
theorem claim_C6_counterexample :
    cardHeight ⟨⟨2024, 7, 17⟩, "2024-07-17", "Wednesday, July 17", []⟩ = 30 ∧
    cardHeight ⟨⟨2024, 7, 17⟩, "2024-07-17", "Wednesday, July 17", []⟩ ≠ 20 :=
  by decide

/-- Claim C6 as amended: the estimated card height of a zero-event day is
`itemBaseHeight + 10 = 30` (the extra 10 pays for the `No events`
placeholder line), and every day card — zero-event ones included — still
consumes exactly one page slot (the page sizes sum to the number of
cards). -/
theorem claim_C6_amended (c : DayCard) (h : c.events = []) :
    cardHeight c = 30 ∧
    ∀ cards : List DayCard,
      ((generatePDFPages cards).map List.length).sum = cards.length := by
  constructor
  · unfold cardHeight
    rw [h]
    rfl
  · intro cards
    rw [← List.length_flatten, generatePDFPages_flatten]

/-- Witness for the amended C6. -/
theorem claim_C6_witness :
    ((DayCard.mk ⟨2024, 7, 17⟩ "2024-07-17" "Wednesday, July 17" []).events
        = []) ∧
    (cardHeight
        (DayCard.mk ⟨2024, 7, 17⟩ "2024-07-17" "Wednesday, July 17" []) = 30 ∧
      ∀ cards : List DayCard,
        ((generatePDFPages cards).map List.length).sum = cards.length) :=
  ⟨rfl, claim_C6_amended
    (DayCard.mk ⟨2024, 7, 17⟩ "2024-07-17" "Wednesday, July 17" []) rfl⟩

/-- Chunks of three: what a purely count-based `maxItemsPerPage = 3`
pagination would produce. -/
def chunks3 : List DayCard → List (List DayCard)
  | [] => []
  | [a] => [[a]]
  | [a, b] => [[a, b]]
  | a :: b :: c :: rest => [a, b, c] :: chunks3 rest

lemma cardHeight_le_68 {c : DayCard} (h : c.events.length ≤ 4) :
    cardHeight c ≤ 68 := by
  unfold cardHeight
  split <;> omega

/-- When every remaining card is short (height at most 68, i.e. at most 4
events), the height threshold is never crossed before the count threshold,
and the loop packs exactly three cards per page. -/
lemma planGo_chunks :
    ∀ (n : Nat) (l : List DayCard), l.length ≤ n →
      (∀ c ∈ l, cardHeight c ≤ 68) →
      ∀ (t : Nat) (pages : List (List DayCard)) (c0 : DayCard),
        cardHeight c0 ≤ 68 →
        planGo l (3 * t + 1) (30 + cardHeight c0) [c0] pages =
          pages ++ chunks3 (c0 :: l) := by
  intro n
  induction n with
  | zero =>
      intro l hl _ t pages c0 _
      have : l = [] := List.length_eq_zero.mp (by omega)
      subst this
      rfl
  | succ n ih =>
      intro l hl hsmall t pages c0 hc0
      rcases l with - | ⟨c1, l1⟩
      · rfl
      rcases l1 with - | ⟨c2, l2⟩
      · -- two cards: one page
        have hc1 : cardHeight c1 ≤ 68 := hsmall c1 (by simp)
        show (if 0 < 3 * t + 1 ∧ ((3 * t + 1) % 3 = 0 ∨
            297 - 100 < 30 + cardHeight c0) then _ else _) = _
        rw [if_neg (by omega)]
        rfl
      rcases l2 with - | ⟨c3, l3⟩
      · -- three cards: one page
        have hc1 : cardHeight c1 ≤ 68 := hsmall c1 (by simp)
        have hc2 : cardHeight c2 ≤ 68 := hsmall c2 (by simp)
        show (if 0 < 3 * t + 1 ∧ ((3 * t + 1) % 3 = 0 ∨
            297 - 100 < 30 + cardHeight c0) then _ else _) = _
        rw [if_neg (by omega)]
        show (if 0 < 3 * t + 1 + 1 ∧ ((3 * t + 1 + 1) % 3 = 0 ∨
            297 - 100 < 30 + cardHeight c0 + cardHeight c1 + 15) then _
          else _) = _
        rw [if_neg (by omega)]
        rfl
      · -- at least four cards: fill this page, break, recurse
        have hc1 : cardHeight c1 ≤ 68 := hsmall c1 (by simp)
        have hc2 : cardHeight c2 ≤ 68 := hsmall c2 (by simp)
        have hc3 : cardHeight c3 ≤ 68 := hsmall c3 (by simp)
        show (if 0 < 3 * t + 1 ∧ ((3 * t + 1) % 3 = 0 ∨
            297 - 100 < 30 + cardHeight c0) then _ else _) = _
        rw [if_neg (by omega)]
        show (if 0 < 3 * t + 1 + 1 ∧ ((3 * t + 1 + 1) % 3 = 0 ∨
            297 - 100 < 30 + cardHeight c0 + cardHeight c1 + 15) then _
          else _) = _
        rw [if_neg (by omega)]
        show (if 0 < 3 * t + 1 + 1 + 1 ∧ ((3 * t + 1 + 1 + 1) % 3 = 0 ∨
            297 - 100 < 30 + cardHeight c0 + cardHeight c1 + 15 +
              cardHeight c2 + 15) then _ else _) = _
        rw [if_pos (by omega)]
        have hshape1 : 3 * t + 1 + 1 + 1 + 1 = 3 * (t + 1) + 1 := by ring

        have hshape2 : 15 + cardHeight c3 + 15 = 30 + cardHeight c3 := by
          omega
        rw [hshape1, hshape2]
        rw [ih l3 (by simp at hl ⊢; omega)
          (fun c hc => hsmall c (by simp [hc])) (t + 1)
          (pages ++ [[c0] ++ [c1] ++ [c2]]) c3 hc3]
        show pages ++ [[c0, c1, c2]] ++ chunks3 (c3 :: l3) =
          pages ++ ([c0, c1, c2] :: chunks3 (c3 :: l3))
        simp

/-- The count-or-height break rule never lets a page exceed 3 cards. -/
lemma planGo_pages_le3 :
    ∀ (cards : List DayCard) (i y : Nat) (cur : List DayCard)
      (pages : List (List DayCard)),
      (∀ p ∈ pages, p.length ≤ 3) →
      cur.length ≤ 3 → cur.length ≤ i →
      (cur.length = 3 → i % 3 = 0) →
      (cur.length = 2 → (i - 1) % 3 ≠ 0) →
      ∀ p ∈ planGo cards i y cur pages, p.length ≤ 3 := by
  intro cards
  induction cards with
  | nil =>
      intro i y cur pages hp h3 _ _ _ p hmem
      simp only [planGo] at hmem
      rcases List.mem_append.mp hmem with h | h
      · exact hp p h
      · simp only [List.mem_singleton] at h
        subst h
        exact h3
  | cons c rest ih =>
      intro i y cur pages hp h3 hi hc3 hc2 p hmem
      simp only [planGo] at hmem
      split at hmem
      · refine ih (i + 1) _ [c] (pages ++ [cur]) ?_ (by simp) (by simp)
          (by intro h; simp at h) (by intro h; simp at h) p hmem
        intro q hq
        rcases List.mem_append.mp hq with h | h
        · exact hp q h
        · simp only [List.mem_singleton] at h
          subst h
          exact h3
      · rename_i hcond
        have hcur3 : cur.length ≠ 3 := by
          intro h
          exact hcond ⟨by omega, Or.inl (hc3 h)⟩
        refine ih (i + 1) _ (cur ++ [c]) pages hp ?_ ?_ ?_ ?_ p hmem
        · simp only [List.length_append, List.length_singleton]
          omega
        · simp only [List.length_append, List.length_singleton]
          omega
        · simp only [List.length_append, List.length_singleton]
          intro h
          have hl2 : cur.length = 2 := by omega
          have := hc2 hl2
          have hi0 : 0 < i := by omega
          have : ¬(i % 3 = 0) := fun h0 => hcond ⟨hi0, Or.inl h0⟩
          omega
        · simp only [List.length_append, List.length_singleton]
          intro h
          have hl1 : cur.length = 1 := by omega
          have hi0 : 0 < i := by omega
          have : ¬(i % 3 = 0) := fun h0 => hcond ⟨hi0, Or.inl h0⟩
          omega

/-- A three-card sequence of tall (10-event) cards used to refute the
pure fixed-count claim. -/
def tallCardW : DayCard :=
  ⟨⟨2024, 7, 14⟩, "2024-07-14", "Sunday, July 14",
    List.replicate 10 ⟨"activity", "09:00", "X", "📅"⟩⟩

/-- Counterexample to claim C7: with three 10-event cards (height 140 each)
the height clause `currentY > pageHeight - 100` fires at index 2, so the
plan is two pages `[2, 1]` — not one page of 3 as a strictly count-based
split every 3 items would give. -/
theorem claim_C7_counterexample :
    generatePDFPages [tallCardW, tallCardW, tallCardW] =
      [[tallCardW, tallCardW], [tallCardW]] ∧
    generatePDFPages [tallCardW, tallCardW, tallCardW] ≠
      [[tallCardW, tallCardW, tallCardW]] := by decide

/-- Claim C7 as amended: a new page starts at index `i > 0` exactly when
`i % 3 = 0` **or** the accumulated y-position exceeds `pageHeight - 100`;
consequently no page ever holds more than 3 cards, and whenever every card
is short enough that the height clause cannot fire (at most 4 events each),
the plan is exactly the fixed-count chunking into pages of 3. -/
theorem claim_C7_amended :
    (∀ cards : List DayCard, (∀ c ∈ cards, c.events.length ≤ 4) →
      generatePDFPages cards =
        if cards.isEmpty then [[]] else chunks3 cards) ∧
    (∀ cards : List DayCard, ∀ p ∈ generatePDFPages cards, p.length ≤ 3) := by
  constructor
  · intro cards hsmall
    rcases cards with - | ⟨c, rest⟩
    · rfl
    · simp only [List.isEmpty_cons, if_neg]
      unfold generatePDFPages
      show (if 0 < 0 ∧ (0 % 3 = 0 ∨ 297 - 100 < 15) then _ else _) = _
      rw [if_neg (by omega)]
      have hc : cardHeight c ≤ 68 := cardHeight_le_68 (hsmall c (by simp))
      have hshape1 : (0 : Nat) + 1 = 3 * 0 + 1 := by ring
      have hshape2 : 15 + cardHeight c + 15 = 30 + cardHeight c := by omega
      rw [hshape1, hshape2]
      show planGo rest (3 * 0 + 1) (30 + cardHeight c) ([] ++ [c]) [] =
        chunks3 (c :: rest)
      rw [List.nil_append]
      rw [planGo_chunks rest.length rest (le_refl _)
        (fun x hx => cardHeight_le_68 (hsmall x (by simp [hx]))) 0 [] c hc]
      rfl
  · intro cards p hmem
    exact planGo_pages_le3 cards 0 15 [] [] (by simp) (by simp) (by simp)
      (by intro h; simp at h) (by intro h; simp at h) p hmem

/-- Witness for the amended C7: three one-event days pack onto one page of
three, and a four-day small trip splits 3 + 1. -/
theorem claim_C7_witness :
    (∀ c ∈ [DayCard.mk ⟨2024, 7, 14⟩ "2024-07-14" "Sunday, July 14"
        [⟨"arrival", "10:00", "Alice arrives", "🛬"⟩],
      DayCard.mk ⟨2024, 7, 15⟩ "2024-07-15" "Monday, July 15" [],
      DayCard.mk ⟨2024, 7, 16⟩ "2024-07-16" "Tuesday, July 16"
        [⟨"departure", "12:00", "Alice departs", "🛫"⟩]],
      c.events.length ≤ 4) ∧
    generatePDFPages [DayCard.mk ⟨2024, 7, 14⟩ "2024-07-14" "Sunday, July 14"
        [⟨"arrival", "10:00", "Alice arrives", "🛬"⟩],
      DayCard.mk ⟨2024, 7, 15⟩ "2024-07-15" "Monday, July 15" [],
      DayCard.mk ⟨2024, 7, 16⟩ "2024-07-16" "Tuesday, July 16"
        [⟨"departure", "12:00", "Alice departs", "🛫"⟩]] =
      if ([DayCard.mk ⟨2024, 7, 14⟩ "2024-07-14" "Sunday, July 14"
        [⟨"arrival", "10:00", "Alice arrives", "🛬"⟩],
      DayCard.mk ⟨2024, 7, 15⟩ "2024-07-15" "Monday, July 15" [],
      DayCard.mk ⟨2024, 7, 16⟩ "2024-07-16" "Tuesday, July 16"
        [⟨"departure", "12:00", "Alice departs", "🛫"⟩]] :
          List DayCard).isEmpty
      then [[]]
      else chunks3 [DayCard.mk ⟨2024, 7, 14⟩ "2024-07-14" "Sunday, July 14"
        [⟨"arrival", "10:00", "Alice arrives", "🛬"⟩],
      DayCard.mk ⟨2024, 7, 15⟩ "2024-07-15" "Monday, July 15" [],
      DayCard.mk ⟨2024, 7, 16⟩ "2024-07-16" "Tuesday, July 16"
        [⟨"departure", "12:00", "Alice departs", "🛫"⟩]] :=
  ⟨by decide, claim_C7_amended.1 _ (by decide)⟩

/-! ### The persistence endpoint handlers

Two variants exist: src/netlify/functions/updateData.js (per-step error
handling: explicit token check, an inner try around the body parse, and
dedicated catches around the GitHub read and write) and the older
src/unnamed/part_000 (one outer try only).  The outcome of each external
step is an input of the embedding: `ParseResult` stands for
`JSON.parse(event.body)` together with the extraction of its `data` field,
and `GithubEnv` for the environment token plus the two Octokit calls. -/

/-- Outcome of `JSON.parse(event.body)` plus the `data`-field extraction:
`fail` models a thrown `SyntaxError`/`TypeError`; `ok none` a successful
parse whose `data` field is absent or falsy; `ok (some d)` a truthy `data`
payload (`d` stands for the serialized trip collection). -/
inductive ParseResult where
  | fail (msg : String)
  | ok (dataField : Option String)
deriving DecidableEq

/-- The response of a handler, reduced to what the spec talks about: the
status code, whether the CORS headers are attached (they are on every
response), and the `message` field of the JSON body (`none` = no body, as
in the 204 preflight response). -/
structure HttpResponse where
  statusCode : Nat
  corsHeaders : Bool
  message : Option String
deriving DecidableEq

/-- The environment of one invocation: whether `process.env.TOKEN` is set,
the outcome of the `getContent` read (`ok` carries the file sha), and the
outcome of `createOrUpdateFileContents` as a function of the sha and the
content written. -/
structure GithubEnv where
  tokenSet : Bool
  readRes : Except String String
  writeRes : String → String → Except String Unit

/-- JS truthiness of `event.body` (absent or empty string is falsy). -/
def jsTruthyStr : Option String → Bool
  | some s => if s = "" then false else true
  | none => false

/-- Embedding of the `handler` of src/netlify/functions/updateData.js:
204 for OPTIONS preflight, 405 for non-POST, 500 when the GitHub token is
not set, 400 when the body parse throws or the parsed body has no (truthy)
`data`, 502 when the GitHub read or the conditional write fails, and 200
with a JSON status body on success.  Every response carries the CORS
headers. -/
def handlerNew (method : String) (body : Option String) (parse : ParseResult)
    (env : GithubEnv) : HttpResponse :=
  if method = "OPTIONS" then ⟨204, true, none⟩
  else if method ≠ "POST" then ⟨405, true, some "Method Not Allowed"⟩
  else if env.tokenSet = false then
    ⟨500, true, some "Server configuration error: GitHub token not set"⟩
  else
    match (if jsTruthyStr body then parse else ParseResult.ok none) with
    | ParseResult.fail _ => ⟨400, true, some "Invalid JSON in request body"⟩
    | ParseResult.ok none => ⟨400, true, some "No data provided"⟩
    | ParseResult.ok (some d) =>
        match env.readRes with
        | Except.error _ => ⟨502, true, some "Error fetching file from GitHub"⟩
        | Except.ok sha =>
            match env.writeRes sha d with
            | Except.error _ =>
                ⟨502, true, some "Error updating file in GitHub"⟩
            | Except.ok _ => ⟨200, true, some "Data updated successfully"⟩

/-- Embedding of the `handler` of src/unnamed/part_000: same preflight and
method gate, but there is no token check, and the body parse, the GitHub
read and the write all sit in one outer try — any of them throwing lands in
the single catch, which answers 500 `Error updating data`. -/
def handlerOld (method : String) (body : Option String) (parse : ParseResult)
    (env : GithubEnv) : HttpResponse :=
  if method = "OPTIONS" then ⟨204, true, none⟩
  else if method ≠ "POST" then ⟨405, true, some "Method Not Allowed"⟩
  else
    match (if jsTruthyStr body then parse else ParseResult.ok none) with
    | ParseResult.fail _ => ⟨500, true, some "Error updating data"⟩
    | ParseResult.ok none => ⟨400, true, some "No data provided"⟩
    | ParseResult.ok (some d) =>
        match env.readRes with
        | Except.error _ => ⟨500, true, some "Error updating data"⟩
        | Except.ok sha =>
            match env.writeRes sha d with
            | Except.error _ => ⟨500, true, some "Error updating data"⟩
            | Except.ok _ => ⟨200, true, some "Data updated successfully"⟩

/-- An environment whose GitHub calls succeed. -/
def envOkW : GithubEnv := ⟨true, Except.ok "abc123", fun _ _ => Except.ok ()⟩

/-- Counterexample to claim C9: the older handler variant
(src/unnamed/part_000) answers 500, not 400, to an invalid-JSON body —
`JSON.parse` throws inside the single outer try. -/
theorem claim_C9_counterexample :
    (handlerOld "POST" (some "not-json") (ParseResult.fail "SyntaxError")
        envOkW).statusCode = 500 ∧
    (handlerOld "POST" (some "not-json") (ParseResult.fail "SyntaxError")
        envOkW).statusCode ≠ 400 := by decide

/-- Claim C9 as amended: the updateData.js handler responds exactly as the
claim states — 204 with CORS headers for OPTIONS, 405 for other non-POST
methods, 500 when the credential is missing, 400 when the body parse fails
or no truthy `data` field results, 502 when the upstream read or the
conditional write fails, and 200 with a JSON status body on success.  The
older variant (src/unnamed/part_000) diverges: its single outer catch
answers 500 (not 400) when the body parse throws and 500 (not 502) when
the upstream read or write fails. -/
theorem claim_C9_amended (method : String) (body : Option String)
    (parse : ParseResult) (env : GithubEnv) :
    (method = "OPTIONS" →
      handlerNew method body parse env = ⟨204, true, none⟩) ∧
    (method ≠ "OPTIONS" → method ≠ "POST" →
      (handlerNew method body parse env).statusCode = 405) ∧
    (method = "POST" → env.tokenSet = false →
      (handlerNew method body parse env).statusCode = 500) ∧
    (method = "POST" → env.tokenSet = true → ∀ msg,
      (if jsTruthyStr body then parse else ParseResult.ok none) =
        ParseResult.fail msg →
      (handlerNew method body parse env).statusCode = 400) ∧
    (method = "POST" → env.tokenSet = true →
      (if jsTruthyStr body then parse else ParseResult.ok none) =
        ParseResult.ok none →
      (handlerNew method body parse env).statusCode = 400) ∧
    (method = "POST" → env.tokenSet = true → ∀ d,
      (if jsTruthyStr body then parse else ParseResult.ok none) =
        ParseResult.ok (some d) → ∀ e, env.readRes = Except.error e →
      (handlerNew method body parse env).statusCode = 502) ∧
    (method = "POST" → env.tokenSet = true → ∀ d,
      (if jsTruthyStr body then parse else ParseResult.ok none) =
        ParseResult.ok (some d) → ∀ sha, env.readRes = Except.ok sha →
      ∀ e, env.writeRes sha d = Except.error e →
      (handlerNew method body parse env).statusCode = 502) ∧
    (method = "POST" → env.tokenSet = true → ∀ d,
      (if jsTruthyStr body then parse else ParseResult.ok none) =
        ParseResult.ok (some d) → ∀ sha, env.readRes = Except.ok sha →
      env.writeRes sha d = Except.ok () →
      handlerNew method body parse env =
        ⟨200, true, some "Data updated successfully"⟩) ∧
    (∀ r, r = handlerNew method body parse env → r.corsHeaders = true) ∧
    (method = "POST" → ∀ msg,
      (if jsTruthyStr body then parse else ParseResult.ok none) =
        ParseResult.fail msg →
      (handlerOld method body parse env).statusCode = 500) ∧
    (method = "POST" → ∀ d,
      (if jsTruthyStr body then parse else ParseResult.ok none) =
        ParseResult.ok (some d) → ∀ e, env.readRes = Except.error e →
      (handlerOld method body parse env).statusCode = 500) := by
  refine ⟨?_, ?_, ?_, ?_, ?_, ?_, ?_, ?_, ?_, ?_, ?_⟩
  · intro h
    simp [handlerNew, h]
  · intro h1 h2
    simp [handlerNew, h1, h2]
  · intro h1 h2
    simp [handlerNew, h1, h2]
  · intro h1 h2 msg h3
    simp [handlerNew, h1, h2, h3]
  · intro h1 h2 h3
    simp [handlerNew, h1, h2, h3]
  · intro h1 h2 d h3 e h4
    simp [handlerNew, h1, h2, h3, h4]
  · intro h1 h2 d h3 sha h4 e h5
    simp [handlerNew, h1, h2, h3, h4, h5]
  · intro h1 h2 d h3 sha h4 h5
    simp [handlerNew, h1, h2, h3, h4, h5]
  · intro r hr
    subst hr
    unfold handlerNew
    split
    · rfl
    · split
      · rfl
      · split
        · rfl
        · split
          · rfl
          · rfl
          · rename_i d hmatch
            cases hr : env.readRes with
            | error e => simp
            | ok sha => cases hw : env.writeRes sha d <;> simp [hw]
  · intro h1 msg h2
    simp [handlerOld, h1, h2]
  · intro h1 d h2 e h3
    simp [handlerOld, h1, h2, h3]

/-- Witness for the amended C9: a successful POST with a truthy body and
data answers 200 with the success message. -/
theorem claim_C9_witness :
    (("POST" : String) = "POST" ∧ envOkW.tokenSet = true ∧
      (if jsTruthyStr (some "x") then ParseResult.ok (some "payload")
        else ParseResult.ok none) = ParseResult.ok (some "payload") ∧
      envOkW.readRes = Except.ok "abc123" ∧
      envOkW.writeRes "abc123" "payload" = Except.ok ()) ∧
    handlerNew "POST" (some "x") (ParseResult.ok (some "payload")) envOkW =
      ⟨200, true, some "Data updated successfully"⟩ :=
  ⟨⟨rfl, rfl, by decide, rfl, rfl⟩,
    (claim_C9_amended "POST" (some "x") (ParseResult.ok (some "payload"))
        envOkW).2.2.2.2.2.2.2.1 rfl rfl "payload" (by decide) "abc123" rfl rfl⟩
